import Mathlib

namespace toit

/-- Allocation outcome marker. Modelled from the spec: a success / failure
marker retained for callers that want to inspect the most recent low-level
allocation attempt. -/
inductive AllocationResult where
  | ALLOCATION_SUCCESS
  | ALLOCATION_FAILURE
deriving Repr, DecidableEq

/-- Modelled from the spec: a Block (`ProgramBlock`, not under src/) is a
fixed-capacity bump-allocation arena. The objects placed in it are recorded
as their byte sizes in allocation order; the bump cursor (`top`, as an offset
from `base = 0`) is the sum of those sizes. All program blocks share one
capacity, held by the owning heap. -/
structure ProgramBlock where
  objects : List Nat
deriving Repr, DecidableEq

namespace ProgramBlock

/-- Offset of the bump cursor: sum of the sizes already allocated. -/
def top (b : ProgramBlock) : Nat := b.objects.sum

/-- Modelled from the spec: a block is empty when nothing was allocated in it. -/
def is_empty (b : ProgramBlock) : Bool := b.objects.isEmpty

/-- Modelled from the spec: `ProgramBlock::allocate_program_block` returns a
fresh, empty block. -/
def allocate_program_block : ProgramBlock := ⟨[]⟩

/-- Modelled from the spec: `Block::allocate(size)` returns a sub-range
(here: the offset of its start) if `cursor + size ≤ capacity`, else fails;
it never partially allocates. -/
def allocate_raw (cap : Nat) (b : ProgramBlock) (byte_size : Nat) :
    Option (ProgramBlock × Nat) :=
  if b.top + byte_size ≤ cap then some (⟨b.objects ++ [byte_size]⟩, b.top)
  else none

end ProgramBlock

/-- The program heap state: a block chain (ordered list of blocks, the last
one active), the shared block capacity, the running byte total, the last
allocation outcome marker and the writable flag.
From `ProgramHeap` in src/src/program_heap.cc; the chain and flag live in
the base classes (not under src/) and are modelled from the spec. -/
structure ProgramHeap where
  cap : Nat
  blocks : List ProgramBlock
  total_bytes_allocated : Nat
  last_allocation_result : AllocationResult
  writable : Bool
deriving Repr, DecidableEq

namespace ProgramHeap

/-- Constructor `ProgramHeap::ProgramHeap`: zero bytes allocated, marker
`ALLOCATION_SUCCESS`, and one pre-allocated block appended to the chain. -/
def new (cap : Nat) : ProgramHeap :=
  { cap := cap
    blocks := [ProgramBlock.allocate_program_block]
    total_bytes_allocated := 0
    last_allocation_result := AllocationResult.ALLOCATION_SUCCESS
    writable := true }

/-- `ProgramHeap::_expand`: appends one freshly allocated block to the chain
and unconditionally reports `ALLOCATION_SUCCESS`. -/
def _expand (h : ProgramHeap) : AllocationResult × ProgramHeap :=
  (AllocationResult.ALLOCATION_SUCCESS,
   { h with blocks := h.blocks ++ [ProgramBlock.allocate_program_block] })

/-- `ProgramHeap::_allocate_raw(byte_size)`: try the chain's last block;
on failure run `_expand`, record its result in the marker, and retry once in
the new last block; on success add `byte_size` to the byte total. Returns
the address of the raw range as a (block index, offset) pair. -/
def _allocate_raw (h : ProgramHeap) (byte_size : Nat) :
    Option (Nat × Nat) × ProgramHeap :=
  match h.blocks.getLast? with
  | none => (none, h)
  | some b =>
    match b.allocate_raw h.cap byte_size with
    | some (b', off) =>
      (some (h.blocks.length - 1, off),
       { h with blocks := h.blocks.set (h.blocks.length - 1) b'
                total_bytes_allocated := h.total_bytes_allocated + byte_size })
    | none =>
      let er := h._expand
      let h1 := { er.2 with last_allocation_result := er.1 }
      if er.1 ≠ AllocationResult.ALLOCATION_SUCCESS then (none, h1)
      else
        match h1.blocks.getLast? with
        | none => (none, h1)
        | some b2 =>
          match b2.allocate_raw h1.cap byte_size with
          | some (b2', off) =>
            (some (h1.blocks.length - 1, off),
             { h1 with blocks := h1.blocks.set (h1.blocks.length - 1) b2'
                       total_bytes_allocated := h1.total_bytes_allocated + byte_size })
          | none => (none, h1)

/-- `ProgramHeap::payload_size`: delegates to the chain's aggregate of used
bytes across all blocks. -/
def payload_size (h : ProgramHeap) : Nat := (h.blocks.map ProgramBlock.top).sum

end ProgramHeap

/-- Size of the object whose header starts at offset `off` in the block, as
the iterator's `HeapObject::cast(current_)->size(program_)` reads it.
Modelled from the spec: every object variant exposes its own total byte size
given its header; offsets are the partial sums of the sizes allocated so far. -/
def ProgramBlock.object_size_at : List Nat → Nat → Option Nat
  | [], _ => none
  | s :: rest, off =>
    if off = 0 then some s
    else if s ≤ off then ProgramBlock.object_size_at rest (off - s) else none

/-- `ProgramHeap::Iterator` state: the bound block (as an index into the
chain; `none` models the null `block_` of the unstarted iterator) and the
cursor `current_` (an offset within the bound block). -/
structure Iterator where
  block_ : Option Nat
  current_ : Nat
deriving Repr, DecidableEq

namespace Iterator

/-- Iterator constructor: lazy initialization, `block_` and `current_` null. -/
def init : Iterator := ⟨none, 0⟩

/-- `ProgramHeap::Iterator::eos`: the chain is empty, or — unstarted — the
first block is empty, or the cursor has reached the bound block's live top
and the bound block is the chain's current last block. -/
def eos (h : ProgramHeap) (it : Iterator) : Bool :=
  match h.blocks with
  | [] => true
  | b0 :: _ =>
    match it.block_ with
    | none => b0.is_empty
    | some i =>
      decide ((h.blocks.getD i ⟨[]⟩).top ≤ it.current_)
        && decide (i = h.blocks.length - 1)

/-- `ProgramHeap::Iterator::ensure_started`: on first use, bind to the
chain's first block and its base address. -/
def ensure_started (h : ProgramHeap) (it : Iterator) : Iterator :=
  match it.block_ with
  | none => ⟨some 0, 0⟩
  | some _ => it

/-- `ProgramHeap::Iterator::current`: ensure started; if the cursor has
reached the bound block's top and that block is not the chain's last block,
rebind to the next block at its base; return the (block, offset) address of
the object at the cursor, together with the updated iterator. -/
def current (h : ProgramHeap) (it : Iterator) : Iterator × (Nat × Nat) :=
  let it := ensure_started h it
  let i := it.block_.getD 0
  if (h.blocks.getD i ⟨[]⟩).top ≤ it.current_ ∧ i ≠ h.blocks.length - 1 then
    (⟨some (i + 1), 0⟩, (i + 1, 0))
  else (it, (i, it.current_))

/-- `ProgramHeap::Iterator::advance`: ensure started; move the cursor past
the current object's size; if the new cursor reaches the bound block's top
and the bound block is not the chain's last block, rebind to the next block
at its base. -/
def advance (h : ProgramHeap) (it : Iterator) : Iterator :=
  let it := ensure_started h it
  let i := it.block_.getD 0
  let b := h.blocks.getD i ⟨[]⟩
  let c := it.current_ + (ProgramBlock.object_size_at b.objects it.current_).getD 0
  if b.top ≤ c ∧ i ≠ h.blocks.length - 1 then ⟨some (i + 1), 0⟩
  else ⟨some i, c⟩

end Iterator

/-- Run the iterator to exhaustion (bounded by `fuel`), collecting the
address of every visited object in order, with the standard client loop
`while (!eos) { o = current(); advance(); }`. -/
def iterObjects (h : ProgramHeap) : Nat → Iterator → List (Nat × Nat)
  | 0, _ => []
  | fuel + 1, it =>
    if Iterator.eos h it then []
    else
      let s := Iterator.current h it
      s.2 :: iterObjects h fuel (Iterator.advance h s.1)

/-- Modelled from the spec: a caller-supplied out-of-band buffer (a raw
`uint8*` in the source), with an identity so that wrapping the buffer and
wrapping a copy of it are distinguishable. -/
structure Buffer where
  id : Nat
  bytes : List Nat
deriving Repr, DecidableEq

/-- Modelled from the spec: a String heap object — internal variant with
inline bytes, or external variant wrapping an out-of-band buffer; both carry
a length and a cached hash, where `none` models the `String::NO_HASH_CODE`
sentinel ("no hash yet"). -/
inductive StringObj where
  | internal (length : Nat) (content : List Nat) (hash : Option Nat)
  | external (length : Nat) (memory : Buffer) (hash : Option Nat)
deriving Repr, DecidableEq

/-- The cached hash of a string object (`none` = sentinel). -/
def StringObj.hash : StringObj → Option Nat
  | .internal _ _ hh => hh
  | .external _ _ hh => hh

/-- Whether the string uses the external variant. -/
def StringObj.is_external : StringObj → Bool
  | .internal _ _ _ => false
  | .external _ _ _ => true

/-- Modelled from the spec: the hash function over a string's content bytes.
Its exact value is irrelevant here; only that a computed hash is cached. -/
def string_hash (bs : List Nat) : Nat := bs.foldl (fun a b => a * 31 + b) 7

/-- Modelled from the spec: `String::hash_code()` — if the cached hash is
the `NO_HASH_CODE` sentinel, compute the hash of the content and cache it;
otherwise leave the object unchanged. -/
def StringObj.hash_code : StringObj → StringObj
  | .internal len c none => .internal len c (some (string_hash c))
  | .external len m none => .external len m (some (string_hash (m.bytes.take len)))
  | s => s

/-- Modelled from the spec: a ByteArray heap object — internal variant with
an inline byte buffer, or external variant wrapping an out-of-band buffer. -/
inductive ByteArrayObj where
  | internal (length : Nat) (content : List Nat)
  | external (length : Nat) (memory : Buffer)
deriving Repr, DecidableEq

/-- Whether the byte array uses the external variant. -/
def ByteArrayObj.is_external : ByteArrayObj → Bool
  | .internal _ _ => false
  | .external _ _ => true

/-- Modelled from the spec: fixed object-header size (class id + type tag). -/
def header_size : Nat := 4

/-- Modelled from the spec: `String::internal_allocation_size(length)` —
header + inline payload + the allocator-inserted terminator byte. -/
def string_internal_allocation_size (length : Nat) : Nat := header_size + length + 1

/-- Modelled from the spec: `String::external_allocation_size()` — header
plus the fixed length/pointer fields of the external variant. -/
def string_external_allocation_size : Nat := header_size + 2

/-- Modelled from the spec: `ByteArray::internal_allocation_size(length)` —
header + inline payload. -/
def byte_array_internal_allocation_size (length : Nat) : Nat := header_size + length

/-- Modelled from the spec: `ByteArray::external_allocation_size()` — header
plus the fixed length/pointer fields of the external variant. -/
def byte_array_external_allocation_size : Nat := header_size + 2

namespace ProgramHeap

/-- `ProgramHeap::allocate_internal_string(length)`: raw-allocate the
internal string size; on success the object has the requested length,
allocator-default content, and its cached hash left at the `NO_HASH_CODE`
sentinel (the source sets `String::NO_HASH_CODE`, it does not compute). -/
def allocate_internal_string (h : ProgramHeap) (length : Nat) :
    Option StringObj × ProgramHeap :=
  match h._allocate_raw (string_internal_allocation_size length) with
  | (none, h') => (none, h')
  | (some _, h') => (some (.internal length (List.replicate length 0) none), h')

/-- `ProgramHeap::allocate_external_string(length, memory)`: raw-allocate
the external string size; on success the object wraps `memory` with the hash
left at the sentinel, after reading the byte at index `length` of `memory`
and, when it is not the NUL terminator, writing a terminator there. -/
def allocate_external_string (h : ProgramHeap) (length : Nat) (memory : Buffer) :
    Option StringObj × Buffer × ProgramHeap :=
  match h._allocate_raw string_external_allocation_size with
  | (none, h') => (none, memory, h')
  | (some _, h') =>
    let memory' :=
      if memory.bytes.getD length 0 ≠ 0 then
        { memory with bytes := memory.bytes.set length 0 }
      else memory
    (some (.external length memory' none), memory', h')

/-- `ProgramHeap::allocate_string(str, length)`: if the length fits the
internal maximum, allocate an internal string and copy the content in; else
allocate an external string wrapping the caller's buffer. Either way, force
the hash computation (`result->hash_code()`) before returning.
`max_internal` is `String::max_internal_size_in_program()` (not under src/),
passed explicitly. -/
def allocate_string (h : ProgramHeap) (max_internal : Nat)
    (str : Buffer) (length : Nat) : Option StringObj × Buffer × ProgramHeap :=
  if length ≤ max_internal then
    match h.allocate_internal_string length with
    | (none, h') => (none, str, h')
    | (some s, h') =>
      let s :=
        match s with
        | .internal len _ hh => StringObj.internal len (str.bytes.take len) hh
        | s => s
      (some s.hash_code, str, h')
  else
    match h.allocate_external_string length str with
    | (none, str', h') => (none, str', h')
    | (some s, str', h') => (some s.hash_code, str', h')

/-- `ProgramHeap::allocate_internal_byte_array(length)`: raw-allocate the
internal byte-array size; on success the object has the requested length and
allocator-default content. -/
def allocate_internal_byte_array (h : ProgramHeap) (length : Nat) :
    Option ByteArrayObj × ProgramHeap :=
  match h._allocate_raw (byte_array_internal_allocation_size length) with
  | (none, h') => (none, h')
  | (some _, h') => (some (.internal length (List.replicate length 0)), h')

/-- `ProgramHeap::allocate_external_byte_array(length, memory)`:
raw-allocate the external byte-array size; on success the object wraps
`memory` itself. -/
def allocate_external_byte_array (h : ProgramHeap) (length : Nat) (memory : Buffer) :
    Option ByteArrayObj × ProgramHeap :=
  match h._allocate_raw byte_array_external_allocation_size with
  | (none, h') => (none, h')
  | (some _, h') => (some (.external length memory), h')

/-- `ProgramHeap::allocate_byte_array(data, length)`: if the length exceeds
the internal maximum, allocate an external byte array wrapping `data`; else
allocate an internal byte array and, when the length is non-zero, copy the
content in. `max_internal` is `ByteArray::max_internal_size_in_program()`
(not under src/), passed explicitly. -/
def allocate_byte_array (h : ProgramHeap) (max_internal : Nat)
    (data : Buffer) (length : Nat) : Option ByteArrayObj × ProgramHeap :=
  if max_internal < length then h.allocate_external_byte_array length data
  else
    match h.allocate_internal_byte_array length with
    | (none, h') => (none, h')
    | (some ba, h') =>
      let ba :=
        if length ≠ 0 then
          match ba with
          | .internal len _ => ByteArrayObj.internal len (data.bytes.take length)
          | b => b
        else ba
      (some ba, h')

end ProgramHeap

/-- Modelled from the spec: the external `Program` container that receives
ownership of the finished heap's blocks; only its block chain matters here. -/
structure Program where
  blocks : List ProgramBlock
deriving Repr, DecidableEq

/-- Aggregate used bytes of the program container's chain. -/
def Program.payload_size (p : Program) : Nat := (p.blocks.map ProgramBlock.top).sum

/-- `ProgramHeap::migrate_to(program)`: set the writable flag to false and
transfer the whole block chain to the program container.
`Program::take_blocks` is not under src/; modelled from the spec: it appends
every block of the source, in original order, to the target, then empties
the source. -/
def ProgramHeap.migrate_to (h : ProgramHeap) (p : Program) : ProgramHeap × Program :=
  ({ h with writable := false, blocks := [] },
   { p with blocks := p.blocks ++ h.blocks })

/-- Run a sequence of raw allocations, threading the heap state. -/
def ProgramHeap.allocate_all (h : ProgramHeap) : List Nat → ProgramHeap
  | [] => h
  | s :: rest => ProgramHeap.allocate_all (h._allocate_raw s).2 rest

end toit

namespace toit

/-- One unfolding step of the iteration loop. -/
theorem iterObjects_succ (h : ProgramHeap) (fuel : Nat) (it : Iterator) :
    iterObjects h (fuel + 1) it =
      if Iterator.eos h it then []
      else
        (Iterator.current h it).2 ::
          iterObjects h fuel (Iterator.advance h (Iterator.current h it).1) := rfl

/-- A raw allocation whose size fits a fresh block always succeeds on a heap
with a non-empty chain; it adds the size to the byte total, keeps the chain
non-empty and the capacity unchanged, and the outcome marker is either left
alone or set to `ALLOCATION_SUCCESS`. -/
theorem ProgramHeap.allocate_raw_success (h : ProgramHeap) (s : Nat)
    (hne : h.blocks ≠ []) (hcap : s ≤ h.cap) :
    ∃ r h', h._allocate_raw s = (some r, h') ∧
      h'.total_bytes_allocated = h.total_bytes_allocated + s ∧
      h'.blocks ≠ [] ∧ h'.cap = h.cap ∧
      (h'.last_allocation_result = h.last_allocation_result ∨
       h'.last_allocation_result = AllocationResult.ALLOCATION_SUCCESS) := by
  obtain ⟨b, hb⟩ : ∃ b, h.blocks.getLast? = some b := by
    cases hl : h.blocks.getLast? with
    | none => exact absurd (List.getLast?_eq_none_iff.mp hl) hne
    | some b => exact ⟨b, rfl⟩
  by_cases hfit : b.top + s ≤ h.cap
  · have he : h._allocate_raw s =
        (some (h.blocks.length - 1, b.top),
         { h with
            blocks := h.blocks.set (h.blocks.length - 1) ⟨b.objects ++ [s]⟩
            total_bytes_allocated := h.total_bytes_allocated + s }) := by
      simp [ProgramHeap._allocate_raw, hb, ProgramBlock.allocate_raw, hfit]
    exact ⟨_, _, he, rfl, by simp [List.set_eq_nil_iff, hne], rfl, Or.inl rfl⟩
  · have hfit' : ¬b.objects.sum + s ≤ h.cap := by simpa [ProgramBlock.top] using hfit
    have he : h._allocate_raw s =
        (some (h.blocks.length, 0),
         { h with
            blocks := h.blocks ++ [⟨[s]⟩]
            total_bytes_allocated := h.total_bytes_allocated + s
            last_allocation_result := AllocationResult.ALLOCATION_SUCCESS }) := by
      simp [ProgramHeap._allocate_raw, hb, ProgramBlock.allocate_raw, hfit',
            ProgramHeap._expand, List.getLast?_concat, ProgramBlock.top,
            ProgramBlock.allocate_program_block, hcap]
    exact ⟨_, _, he, rfl, by simp, rfl, Or.inr rfl⟩

/-- Running a list of raw allocations whose sizes all fit a fresh block adds
exactly the list's sum to the byte total. -/
theorem ProgramHeap.allocate_all_total (l : List Nat) (h : ProgramHeap)
    (hne : h.blocks ≠ []) (hall : ∀ s ∈ l, s ≤ h.cap) :
    (h.allocate_all l).total_bytes_allocated = h.total_bytes_allocated + l.sum := by
  induction l generalizing h with
  | nil => simp [ProgramHeap.allocate_all]
  | cons s rest ih =>
    obtain ⟨r, h', he, ht, hne', hc, _⟩ :=
      h.allocate_raw_success s hne (hall s (List.mem_cons_self s rest))
    have hrec := ih h' hne' (by intro x hx; rw [hc]; exact hall x (List.mem_cons_of_mem s hx))
    simp only [ProgramHeap.allocate_all, he, List.sum_cons]
    omega

/-- Case equation for `_allocate_raw`: the active block has room, so the
first attempt succeeds in place. -/
theorem ProgramHeap.allocate_raw_fit (h : ProgramHeap) (s : Nat)
    (b : ProgramBlock) (hb : h.blocks.getLast? = some b)
    (hfit : b.top + s ≤ h.cap) :
    h._allocate_raw s =
      (some (h.blocks.length - 1, b.top),
       { h with
          blocks := h.blocks.set (h.blocks.length - 1) ⟨b.objects ++ [s]⟩
          total_bytes_allocated := h.total_bytes_allocated + s }) := by
  have hfit' : b.objects.sum + s ≤ h.cap := by simpa [ProgramBlock.top] using hfit
  simp [ProgramHeap._allocate_raw, hb, ProgramBlock.allocate_raw, hfit',
        ProgramBlock.top]

/-- Case equation for `_allocate_raw`: the active block is too full, but the
size fits a fresh block, so one block is appended and the retry succeeds. -/
theorem ProgramHeap.allocate_raw_nofit (h : ProgramHeap) (s : Nat)
    (b : ProgramBlock) (hb : h.blocks.getLast? = some b)
    (hover : h.cap < b.top + s) (hcap : s ≤ h.cap) :
    h._allocate_raw s =
      (some (h.blocks.length, 0),
       { h with
          blocks := h.blocks ++ [⟨[s]⟩]
          total_bytes_allocated := h.total_bytes_allocated + s
          last_allocation_result := AllocationResult.ALLOCATION_SUCCESS }) := by
  have hfit' : ¬b.objects.sum + s ≤ h.cap := by
    simp only [ProgramBlock.top] at hover; omega
  simp [ProgramHeap._allocate_raw, hb, ProgramBlock.allocate_raw, hfit',
        ProgramHeap._expand, List.getLast?_concat, ProgramBlock.top,
        ProgramBlock.allocate_program_block, hcap]

/-- Case equation for `_allocate_raw`: the size exceeds even a fresh block's
capacity, so the retry after the single expansion also fails and the call
fails for good. -/
theorem ProgramHeap.allocate_raw_toobig (h : ProgramHeap) (s : Nat)
    (b : ProgramBlock) (hb : h.blocks.getLast? = some b) (hbig : h.cap < s) :
    h._allocate_raw s =
      (none,
       { h with
          blocks := h.blocks ++ [ProgramBlock.allocate_program_block]
          last_allocation_result := AllocationResult.ALLOCATION_SUCCESS }) := by
  have hfit' : ¬b.objects.sum + s ≤ h.cap := by omega
  have hno : ¬s ≤ h.cap := by omega
  simp [ProgramHeap._allocate_raw, hb, ProgramBlock.allocate_raw, hfit',
        ProgramHeap._expand, List.getLast?_concat, ProgramBlock.top,
        ProgramBlock.allocate_program_block, hno]

/-- C2: for `0 < byte_size ≤ max_block_payload` (the fresh-block capacity),
`_allocate_raw` first tries the chain's active (last) block; on failure it
appends exactly one new block and retries exactly once, a retry failure
(possible only for sizes over the capacity) being a final failure; on
success it adds `byte_size` to `total_bytes_allocated` and returns the raw
range. -/
theorem allocate_raw_attempt_expand_retry (h : ProgramHeap) (s : Nat)
    (hpos : 0 < s) :
    (∀ b, h.blocks.getLast? = some b → b.top + s ≤ h.cap →
      h._allocate_raw s =
        (some (h.blocks.length - 1, b.top),
         { h with
            blocks := h.blocks.set (h.blocks.length - 1) ⟨b.objects ++ [s]⟩
            total_bytes_allocated := h.total_bytes_allocated + s })) ∧
    (∀ b, h.blocks.getLast? = some b → h.cap < b.top + s → s ≤ h.cap →
      h._allocate_raw s =
        (some (h.blocks.length, 0),
         { h with
            blocks := h.blocks ++ [⟨[s]⟩]
            total_bytes_allocated := h.total_bytes_allocated + s
            last_allocation_result := AllocationResult.ALLOCATION_SUCCESS })) ∧
    (∀ b, h.blocks.getLast? = some b → h.cap < s →
      h._allocate_raw s =
        (none,
         { h with
            blocks := h.blocks ++ [ProgramBlock.allocate_program_block]
            last_allocation_result := AllocationResult.ALLOCATION_SUCCESS })) :=
  ⟨fun b hb hfit => h.allocate_raw_fit s b hb hfit,
   fun b hb hover hcap => h.allocate_raw_nofit s b hb hover hcap,
   fun b hb hbig => h.allocate_raw_toobig s b hb hbig⟩

/-- Witness for C2: on a fresh heap of capacity 10, allocating 4 bytes lands
in the first block at offset 0 and bumps the byte total to 4. -/
theorem allocate_raw_attempt_expand_retry_witness :
    (ProgramHeap.new 10)._allocate_raw 4 =
      (some (0, 0),
       { cap := 10, blocks := [⟨[4]⟩], total_bytes_allocated := 4,
         last_allocation_result := AllocationResult.ALLOCATION_SUCCESS,
         writable := true }) := by
  have hth := (allocate_raw_attempt_expand_retry (ProgramHeap.new 10) 4
    (by decide)).1 ⟨[]⟩ (by decide) (by decide)
  simpa [ProgramHeap.new, ProgramBlock.top] using hth

/-- C3: on a fresh heap, a sequence of successful allocations with sizes
`l` leaves `total_bytes_allocated` at exactly `l.sum`, however many block
expansions occurred; and no operation (`_allocate_raw`, `_expand`,
`migrate_to`) ever decreases `total_bytes_allocated`. -/
theorem total_bytes_exact_sum (cap : Nat) (l : List Nat)
    (hall : ∀ s ∈ l, 0 < s ∧ s ≤ cap) :
    ((ProgramHeap.new cap).allocate_all l).total_bytes_allocated = l.sum ∧
    (∀ (h : ProgramHeap) (s : Nat), h.total_bytes_allocated ≤
      ((h._allocate_raw s).2).total_bytes_allocated) ∧
    (∀ (h : ProgramHeap), h.total_bytes_allocated ≤
      (h._expand).2.total_bytes_allocated) ∧
    (∀ (h : ProgramHeap) (p : Program), ((h.migrate_to p).1).total_bytes_allocated =
      h.total_bytes_allocated) := by
  refine ⟨?_, ?_, ?_, ?_⟩
  · have hmain := ProgramHeap.allocate_all_total l (ProgramHeap.new cap)
      (by simp [ProgramHeap.new]) (fun x hx => (hall x hx).2)
    simpa [ProgramHeap.new] using hmain
  · intro h s
    unfold ProgramHeap._allocate_raw
    cases hb : h.blocks.getLast? with
    | none => simp
    | some b =>
      simp only
      cases hr : b.allocate_raw h.cap s with
      | some p => simp
      | none =>
        simp only [ProgramHeap._expand]
        cases hr2 : ProgramBlock.allocate_raw h.cap
            ProgramBlock.allocate_program_block s with
        | some p => simp [List.getLast?_concat, hr2]
        | none => simp [List.getLast?_concat, hr2]
  · intro h; simp [ProgramHeap._expand]
  · intro h p; simp [ProgramHeap.migrate_to]

/-- Witness for C3: on a fresh heap of capacity 10, allocating 3, 4 and 5
bytes in turn (forcing a block expansion) leaves the byte total at 12. -/
theorem total_bytes_exact_sum_witness :
    ((ProgramHeap.new 10).allocate_all [3, 4, 5]).total_bytes_allocated = 12 := by
  have hth := (total_bytes_exact_sum 10 [3, 4, 5] (by decide)).1
  simpa using hth

/-- C9: under the raw-allocation contract `0 < byte_size ≤ capacity` (and
with block appending modelled as infallible, as the source's `_expand` is),
`_allocate_raw` never returns null on a live heap, so the null-return branch
of the typed allocation operations is unreachable whenever their computed
allocation sizes fit a block. -/
theorem allocate_raw_never_fails (h : ProgramHeap) (s len : Nat)
    (hne : h.blocks ≠ []) (hpos : 0 < s) (hcap : s ≤ h.cap) :
    (h._allocate_raw s).1.isSome ∧
    (string_internal_allocation_size len ≤ h.cap →
      ((h.allocate_internal_string len).1.isSome)) ∧
    (∀ m, string_external_allocation_size ≤ h.cap →
      ((h.allocate_external_string len m).1.isSome)) ∧
    (byte_array_internal_allocation_size len ≤ h.cap →
      ((h.allocate_internal_byte_array len).1.isSome)) ∧
    (∀ m, byte_array_external_allocation_size ≤ h.cap →
      ((h.allocate_external_byte_array len m).1.isSome)) := by
  obtain ⟨r, h', he, -⟩ := h.allocate_raw_success s hne hcap
  refine ⟨by simp [he], ?_, ?_, ?_, ?_⟩
  · intro hsz
    obtain ⟨r1, h1, he1, -⟩ := h.allocate_raw_success _ hne hsz
    simp [ProgramHeap.allocate_internal_string, he1]
  · intro m hsz
    obtain ⟨r1, h1, he1, -⟩ := h.allocate_raw_success _ hne hsz
    simp [ProgramHeap.allocate_external_string, he1]
  · intro hsz
    obtain ⟨r1, h1, he1, -⟩ := h.allocate_raw_success _ hne hsz
    simp [ProgramHeap.allocate_internal_byte_array, he1]
  · intro m hsz
    obtain ⟨r1, h1, he1, -⟩ := h.allocate_raw_success _ hne hsz
    simp [ProgramHeap.allocate_external_byte_array, he1]

/-- Witness for C9: a 4-byte raw allocation and an internal string of
length 3 (allocation size 8) both succeed on a fresh heap of capacity 10. -/
theorem allocate_raw_never_fails_witness :
    ((ProgramHeap.new 10)._allocate_raw 4).1.isSome ∧
    ((ProgramHeap.new 10).allocate_internal_string 3).1.isSome := by
  have hth := allocate_raw_never_fails (ProgramHeap.new 10) 4 3
    (by decide) (by decide) (by decide)
  exact ⟨hth.1, hth.2.1 (by decide)⟩

/-- C8: the outcome marker is `ALLOCATION_SUCCESS` on a fresh heap, is only
ever written with `_expand`'s (always-success) result, and every raw
allocation attempt within the size contract succeeds — so a caller
inspecting `last_allocation_result` right after any allocation sees the
outcome of that allocation. -/
theorem last_allocation_result_reflects_outcome (cap : Nat) (h : ProgramHeap)
    (s : Nat)
    (hinv : h.last_allocation_result = AllocationResult.ALLOCATION_SUCCESS)
    (hne : h.blocks ≠ []) (hpos : 0 < s) (hcap : s ≤ h.cap) :
    (ProgramHeap.new cap).last_allocation_result =
      AllocationResult.ALLOCATION_SUCCESS ∧
    (h._allocate_raw s).1.isSome ∧
    ((h._allocate_raw s).2).last_allocation_result =
      AllocationResult.ALLOCATION_SUCCESS := by
  obtain ⟨r, h', he, -, -, -, hl⟩ := h.allocate_raw_success s hne hcap
  refine ⟨rfl, by simp [he], ?_⟩
  rw [he]
  rcases hl with hl | hl
  · rw [hl, hinv]
  · exact hl

/-- Witness for C8: after a 4-byte allocation on a fresh heap of capacity
10, the attempt succeeded and the marker reads `ALLOCATION_SUCCESS`. -/
theorem last_allocation_result_reflects_outcome_witness :
    ((ProgramHeap.new 10)._allocate_raw 4).1.isSome ∧
    (((ProgramHeap.new 10)._allocate_raw 4).2).last_allocation_result =
      AllocationResult.ALLOCATION_SUCCESS := by
  have hth := last_allocation_result_reflects_outcome 10 (ProgramHeap.new 10) 4
    (by decide) (by decide) (by decide) (by decide)
  exact ⟨hth.2.1, hth.2.2⟩

/-- C6: after `migrate_to(target)` with a fresh target container, the source
heap's writable flag is false, its chain holds zero blocks so its aggregate
payload size is 0, and the target holds exactly the source's blocks in
order, so its payload size equals the source's pre-migration payload size. -/
theorem migrate_to_transfers_ownership (h : ProgramHeap) (p : Program)
    (hp : p.blocks = []) :
    ((h.migrate_to p).1).writable = false ∧
    ((h.migrate_to p).1).blocks = [] ∧
    ((h.migrate_to p).1).payload_size = 0 ∧
    ((h.migrate_to p).2).blocks = h.blocks ∧
    ((h.migrate_to p).2).payload_size = h.payload_size := by
  simp [ProgramHeap.migrate_to, ProgramHeap.payload_size, Program.payload_size, hp]

/-- Witness for C6: migrating a one-block heap holding a 3-byte and a 4-byte
object into an empty program container. -/
theorem migrate_to_transfers_ownership_witness :
    (((⟨10, [⟨[3, 4]⟩], 7, AllocationResult.ALLOCATION_SUCCESS, true⟩ :
        ProgramHeap).migrate_to ⟨[]⟩).1).writable = false ∧
    (((⟨10, [⟨[3, 4]⟩], 7, AllocationResult.ALLOCATION_SUCCESS, true⟩ :
        ProgramHeap).migrate_to ⟨[]⟩).1).payload_size = 0 ∧
    (((⟨10, [⟨[3, 4]⟩], 7, AllocationResult.ALLOCATION_SUCCESS, true⟩ :
        ProgramHeap).migrate_to ⟨[]⟩).2).payload_size = 7 := by
  have hth := migrate_to_transfers_ownership
    ⟨10, [⟨[3, 4]⟩], 7, AllocationResult.ALLOCATION_SUCCESS, true⟩ ⟨[]⟩ rfl
  exact ⟨hth.1, hth.2.2.1, by rw [hth.2.2.2.2]; decide⟩

/-- A started iterator's end-of-sequence test, characterized against the
live chain: true exactly when the chain is empty, or the cursor has reached
the bound block's current top and that block is currently the last one. -/
theorem Iterator.eos_started_char (h : ProgramHeap) (i c : Nat) :
    Iterator.eos h ⟨some i, c⟩ = true ↔
      h.blocks = [] ∨
      ((h.blocks.getD i ⟨[]⟩).top ≤ c ∧ i = h.blocks.length - 1) := by
  cases hbs : h.blocks with
  | nil => simp [Iterator.eos, hbs]
  | cons b0 rest => simp [Iterator.eos, hbs, List.getD]

/-- C4: for a started iterator, the end-of-sequence test — recomputed from
the live chain on every call — holds exactly when the chain is empty, or the
cursor has reached the current top of the bound block and that block is
still the chain's last block at the moment of the check; and a successful
raw allocation performed after an iterator reached end-of-sequence turns the
same iterator's end-of-sequence test false again. -/
theorem eos_recomputed_live (h : ProgramHeap) (i c s : Nat) :
    (Iterator.eos h ⟨some i, c⟩ = true ↔
      h.blocks = [] ∨
      ((h.blocks.getD i ⟨[]⟩).top ≤ c ∧ i = h.blocks.length - 1)) ∧
    (h.blocks ≠ [] → i = h.blocks.length - 1 →
      c = (h.blocks.getD i ⟨[]⟩).top → 0 < s → s ≤ h.cap →
      Iterator.eos (h._allocate_raw s).2 ⟨some i, c⟩ = false) := by
  refine ⟨Iterator.eos_started_char h i c, ?_⟩
  intro hne hlast hcur hpos hcap
  have hlen : 0 < h.blocks.length := List.length_pos.mpr hne
  obtain ⟨b, hb⟩ : ∃ b, h.blocks.getLast? = some b := by
    cases hl : h.blocks.getLast? with
    | none => exact absurd (List.getLast?_eq_none_iff.mp hl) hne
    | some b => exact ⟨b, rfl⟩
  have hgd : h.blocks.getD i ⟨[]⟩ = b := by
    have h1 := List.getLast?_eq_getElem? h.blocks
    rw [hb] at h1
    simp only [List.getD, List.get?_eq_getElem?, hlast, ← h1, Option.getD_some]
  by_cases hfit : b.top + s ≤ h.cap
  · have he := h.allocate_raw_fit s b hb hfit
    rw [he, ← Bool.not_eq_true, Iterator.eos_started_char]
    rintro (hnil | ⟨hle, -⟩)
    · exact absurd ((List.set_eq_nil_iff _ _).mp hnil) hne
    · have hget : (h.blocks.set (h.blocks.length - 1)
          ⟨b.objects ++ [s]⟩).getD i ⟨[]⟩ = ⟨b.objects ++ [s]⟩ := by
        simp only [List.getD, List.get?_eq_getElem?, hlast]
        rw [List.getElem?_set_eq (by simpa using hlen)]
        rfl
      rw [hget] at hle
      rw [hgd] at hcur
      simp only [ProgramBlock.top, List.sum_append, List.sum_cons,
        List.sum_nil] at hle hcur
      omega
  · have he := h.allocate_raw_nofit s b hb (by omega) hcap
    rw [he, ← Bool.not_eq_true, Iterator.eos_started_char]
    rintro (hnil | ⟨-, hl2⟩)
    · simp at hnil
    · simp only [List.length_append, List.length_singleton] at hl2
      omega

/-- Witness for C4: on a one-block heap holding a single 6-byte object over
capacity 10, the iterator at offset 6 is at end of sequence; after a 3-byte
allocation the same iterator no longer is. -/
theorem eos_recomputed_live_witness :
    Iterator.eos
      ⟨10, [⟨[6]⟩], 6, AllocationResult.ALLOCATION_SUCCESS, true⟩
      ⟨some 0, 6⟩ = true ∧
    Iterator.eos
      ((⟨10, [⟨[6]⟩], 6, AllocationResult.ALLOCATION_SUCCESS, true⟩ :
        ProgramHeap)._allocate_raw 3).2 ⟨some 0, 6⟩ = false := by
  have hth := eos_recomputed_live
    ⟨10, [⟨[6]⟩], 6, AllocationResult.ALLOCATION_SUCCESS, true⟩ 0 6 3
  exact ⟨hth.1.mpr (Or.inr (by decide)),
         hth.2 (by decide) (by decide) (by decide) (by decide) (by decide)⟩

/-- A string returned by `String::hash_code()` always carries a computed
hash, never the sentinel. -/
theorem StringObj.hash_code_computed (s : StringObj) : s.hash_code.hash ≠ none := by
  cases s with
  | internal len c hh =>
    cases hh <;> simp [StringObj.hash_code, StringObj.hash]
  | external len m hh =>
    cases hh <;> simp [StringObj.hash_code, StringObj.hash]

/-- C7 counterexample: `allocate_internal_string` — one of the three string
allocation entry points named by the claim — returns its string with the
cached hash still equal to the `NO_HASH_CODE` sentinel (modelled as `none`):
the source sets `String::NO_HASH_CODE` and never computes, so the claim is
false for this entry point. -/
theorem internal_string_hash_left_at_sentinel :
    ((ProgramHeap.new 100).allocate_internal_string 3).1
      = some (StringObj.internal 3 [0, 0, 0] none) ∧
    (StringObj.internal 3 [0, 0, 0] none).hash = none := by
  exact ⟨by decide, rfl⟩

/-- C7 (amended): a string produced via the dispatcher `allocate_string`
(either overload ends with `result->hash_code()`) has its cached hash
computed — not the sentinel — immediately after the call returns; the
lower-level entry points `allocate_internal_string` and
`allocate_external_string` instead leave the sentinel for the caller. -/
theorem allocate_string_hash_computed (h : ProgramHeap) (t len : Nat)
    (str : Buffer) (s : StringObj)
    (hres : (h.allocate_string t str len).1 = some s) :
    s.hash ≠ none := by
  unfold ProgramHeap.allocate_string at hres
  by_cases hd : len ≤ t
  · rw [if_pos hd] at hres
    cases he : h.allocate_internal_string len with
    | mk os h1 =>
      rw [he] at hres
      cases os with
      | none => simp at hres
      | some s0 =>
        simp only [Option.some.injEq] at hres
        rw [← hres]
        exact StringObj.hash_code_computed _
  · rw [if_neg hd] at hres
    cases he : h.allocate_external_string len str with
    | mk os rest =>
      rw [he] at hres
      cases os with
      | none => simp at hres
      | some s0 =>
        simp only [Option.some.injEq] at hres
        rw [← hres]
        exact StringObj.hash_code_computed _

/-- Witness for C7 (amended): `allocate_string` of the two bytes `[1, 2]`
on a fresh heap returns a string with a computed (non-sentinel) hash. -/
theorem allocate_string_hash_computed_witness :
    (StringObj.internal 2 [1, 2] (some 6760)).hash ≠ none :=
  allocate_string_hash_computed (ProgramHeap.new 100) 5 2 ⟨0, [1, 2]⟩
    (StringObj.internal 2 [1, 2] (some 6760)) (by decide)

/-- C5 counterexample: the external branch of `allocate_byte_array` wraps
the caller's buffer itself — same identity, no copy is made (the source
passes `data` straight to `allocate_external_byte_array` and only the
internal branch performs `memcpy`), contradicting the claim's "wrapping a
copy of data": with threshold 2 and length 3 the returned object holds the
very buffer (id 7) the caller passed. -/
theorem byte_array_external_wraps_original :
    ((ProgramHeap.new 100).allocate_byte_array 2 ⟨7, [1, 2, 3]⟩ 3).1
      = some (ByteArrayObj.external 3 ⟨7, [1, 2, 3]⟩) := by
  decide

/-- C5 (amended): byte arrays and strings dispatch on a hard threshold —
content of length exactly the internal maximum uses the internal variant,
length threshold+1 the external variant; `allocate_byte_array` copies `data`
into the object in the internal case, and in the external case allocates an
external byte array wrapping the caller's buffer directly (no copy). -/
theorem threshold_dispatch (h : ProgramHeap) (t : Nat) (data str : Buffer)
    (hne : h.blocks ≠ [])
    (hbi : byte_array_internal_allocation_size t ≤ h.cap)
    (hbe : byte_array_external_allocation_size ≤ h.cap)
    (hsi : string_internal_allocation_size t ≤ h.cap)
    (hse : string_external_allocation_size ≤ h.cap) :
    (h.allocate_byte_array t data t).1
      = some (ByteArrayObj.internal t (data.bytes.take t)) ∧
    (h.allocate_byte_array t data (t + 1)).1
      = some (ByteArrayObj.external (t + 1) data) ∧
    (∃ s1, (h.allocate_string t str t).1 = some s1 ∧ s1.is_external = false) ∧
    (∃ s2, (h.allocate_string t str (t + 1)).1 = some s2 ∧
      s2.is_external = true) := by
  refine ⟨?_, ?_, ?_, ?_⟩
  · obtain ⟨r1, h1, he1, -⟩ := h.allocate_raw_success _ hne hbi
    by_cases ht : t = 0
    · subst ht
      simp [ProgramHeap.allocate_byte_array,
            ProgramHeap.allocate_internal_byte_array, he1]
    · simp [ProgramHeap.allocate_byte_array,
            ProgramHeap.allocate_internal_byte_array, he1, ht]
  · obtain ⟨r1, h1, he1, -⟩ := h.allocate_raw_success _ hne hbe
    simp [ProgramHeap.allocate_byte_array, ProgramHeap.allocate_external_byte_array,
          he1]
  · obtain ⟨r1, h1, he1, -⟩ := h.allocate_raw_success _ hne hsi
    refine ⟨(StringObj.internal t (str.bytes.take t) none).hash_code, ?_, ?_⟩
    · simp [ProgramHeap.allocate_string, ProgramHeap.allocate_internal_string, he1]
    · simp [StringObj.hash_code, StringObj.is_external]
  · obtain ⟨r1, h1, he1, -⟩ := h.allocate_raw_success _ hne hse
    by_cases hz : str.bytes.getD (t + 1) 0 = 0
    · have hz' : str.bytes[t + 1]?.getD 0 = 0 := by simpa [List.getD] using hz
      refine ⟨(StringObj.external (t + 1) str none).hash_code, ?_, ?_⟩
      · simp [ProgramHeap.allocate_string, ProgramHeap.allocate_external_string,
              he1, hz']
      · simp [StringObj.hash_code, StringObj.is_external]
    · have hz' : ¬str.bytes[t + 1]?.getD 0 = 0 := by simpa [List.getD] using hz
      refine ⟨(StringObj.external (t + 1)
        { str with bytes := str.bytes.set (t + 1) 0 } none).hash_code, ?_, ?_⟩
      · simp [ProgramHeap.allocate_string, ProgramHeap.allocate_external_string,
              he1, hz']
      · simp [StringObj.hash_code, StringObj.is_external]

/-- Witness for C5 (amended): with threshold 2 on a fresh heap of capacity
100, a 2-byte payload is stored internally (content copied) and a 3-byte
payload externally. -/
theorem threshold_dispatch_witness :
    ((ProgramHeap.new 100).allocate_byte_array 2 ⟨9, [5, 6]⟩ 2).1
      = some (ByteArrayObj.internal 2 [5, 6]) ∧
    ((ProgramHeap.new 100).allocate_byte_array 2 ⟨9, [5, 6, 7]⟩ 3).1
      = some (ByteArrayObj.external 3 ⟨9, [5, 6, 7]⟩) := by
  have h1 := (threshold_dispatch (ProgramHeap.new 100) 2 ⟨9, [5, 6]⟩ ⟨9, [5, 6]⟩
    (by decide) (by decide) (by decide) (by decide) (by decide)).1
  have h2 := (threshold_dispatch (ProgramHeap.new 100) 2 ⟨9, [5, 6, 7]⟩ ⟨9, [5, 6, 7]⟩
    (by decide) (by decide) (by decide) (by decide) (by decide)).2.1
  exact ⟨by simpa using h1, by simpa using h2⟩

/-- C10: `allocate_external_string(length, memory)` inspects the byte at
index `length` of the caller's buffer — which must therefore be readable one
past the string content — and, when that byte is not the NUL terminator,
writes a terminator there, mutating the caller's out-of-band buffer; when it
already is NUL the buffer is returned untouched. -/
theorem external_string_reads_and_terminates (h : ProgramHeap) (len : Nat)
    (m : Buffer) (hne : h.blocks ≠ [])
    (hcap : string_external_allocation_size ≤ h.cap)
    (hlen : len < m.bytes.length) :
    (h.allocate_external_string len m).1.isSome ∧
    ((h.allocate_external_string len m).2.1).bytes.getD len 0 = 0 ∧
    (m.bytes.getD len 0 = 0 → (h.allocate_external_string len m).2.1 = m) ∧
    (m.bytes.getD len 0 ≠ 0 →
      (h.allocate_external_string len m).2.1
          = { m with bytes := m.bytes.set len 0 } ∧
      (h.allocate_external_string len m).2.1 ≠ m) := by
  obtain ⟨r1, h1, he1, -⟩ := h.allocate_raw_success _ hne hcap
  have hset : (m.bytes.set len 0).getD len 0 = 0 := by
    simp [List.getD, List.get?_eq_getElem?, List.getElem?_set_eq hlen]
  by_cases hz : m.bytes.getD len 0 = 0
  · have hz' : m.bytes[len]?.getD 0 = 0 := by simpa [List.getD] using hz
    simp [ProgramHeap.allocate_external_string, he1, hz, hz', List.getD]
  · have hz' : ¬m.bytes[len]?.getD 0 = 0 := by simpa [List.getD] using hz
    have hm : (h.allocate_external_string len m).2.1
        = { m with bytes := m.bytes.set len 0 } := by
      simp [ProgramHeap.allocate_external_string, he1, hz']
    refine ⟨?_, ?_, fun hzz => absurd hzz hz, fun _ => ⟨hm, ?_⟩⟩
    · simp [ProgramHeap.allocate_external_string, he1, hz']
    · rw [hm]
      exact hset
    · rw [hm]
      intro heq
      have hbytes : m.bytes.set len 0 = m.bytes := congrArg Buffer.bytes heq
      rw [hbytes] at hset
      exact hz hset

/-- Witness for C10: wrapping the buffer `[65, 66, 67]` as a length-1
external string overwrites the byte at index 1 with the terminator. -/
theorem external_string_reads_and_terminates_witness :
    ((ProgramHeap.new 100).allocate_external_string 1 ⟨3, [65, 66, 67]⟩).2.1
      = ⟨3, [65, 0, 67]⟩ := by
  have hth := external_string_reads_and_terminates (ProgramHeap.new 100) 1
    ⟨3, [65, 66, 67]⟩ (by decide) (by decide) (by decide)
  have hm := (hth.2.2.2 (by decide)).1
  simpa using hm

/-- `_allocate_raw` on a single-block heap whose block has room: the object
lands at the block's current top. -/
theorem ProgramHeap.allocate_raw_single (cap t : Nat) (r : AllocationResult)
    (w : Bool) (l : List Nat) (s : Nat) (hfit : l.sum + s ≤ cap) :
    ProgramHeap._allocate_raw ⟨cap, [⟨l⟩], t, r, w⟩ s
      = (some (0, l.sum), ⟨cap, [⟨l ++ [s]⟩], t + s, r, w⟩) := by
  simp [ProgramHeap._allocate_raw, ProgramBlock.allocate_raw, ProgramBlock.top,
        hfit]

/-- C1: iteration interleaved with allocation by the same control flow sees
objects allocated at or beyond the cursor into the still-active block:
allocate A, B, C of sizes `a`, `b`, `c`; start iterating; the first visit
returns A's address; after advancing past A, allocate D of size `d` into the
same (still-active) block; the remaining iteration yields exactly B, C, D in
that order — nothing skipped, nothing visited twice. -/
theorem iterator_sees_objects_allocated_mid_iteration
    (cap a b c d : Nat) (ha : 0 < a) (hb : 0 < b) (hc : 0 < c) (hd : 0 < d)
    (hsum : a + b + c + d ≤ cap) :
    (Iterator.current ((ProgramHeap.new cap).allocate_all [a, b, c])
        Iterator.init).2 = (0, 0) ∧
    iterObjects ((((ProgramHeap.new cap).allocate_all [a, b, c])._allocate_raw d).2)
        4
        (Iterator.advance ((ProgramHeap.new cap).allocate_all [a, b, c])
          (Iterator.current ((ProgramHeap.new cap).allocate_all [a, b, c])
            Iterator.init).1)
      = [(0, a), (0, a + b), (0, a + b + c)] := by
  have e1 := ProgramHeap.allocate_raw_single cap 0
    AllocationResult.ALLOCATION_SUCCESS true [] a (by simp; omega)
  have e2 := ProgramHeap.allocate_raw_single cap a
    AllocationResult.ALLOCATION_SUCCESS true [a] b (by simp; omega)
  have e3 := ProgramHeap.allocate_raw_single cap (a + b)
    AllocationResult.ALLOCATION_SUCCESS true [a, b] c (by simp; omega)
  have h3 : (ProgramHeap.new cap).allocate_all [a, b, c]
      = ⟨cap, [⟨[a, b, c]⟩], a + b + c, AllocationResult.ALLOCATION_SUCCESS,
         true⟩ := by
    simp [ProgramHeap.allocate_all, ProgramHeap.new,
          ProgramBlock.allocate_program_block, e1, e2, e3]
  have e4 := ProgramHeap.allocate_raw_single cap (a + b + c)
    AllocationResult.ALLOCATION_SUCCESS true [a, b, c] d (by simp; omega)
  have e4' : ((⟨cap, [⟨[a, b, c]⟩], a + b + c,
      AllocationResult.ALLOCATION_SUCCESS, true⟩ : ProgramHeap)._allocate_raw d).2
      = ⟨cap, [⟨[a, b, c, d]⟩], a + b + c + d,
         AllocationResult.ALLOCATION_SUCCESS, true⟩ := by
    simp [e4]
  rw [h3, e4']
  set h4 : ProgramHeap :=
    ⟨cap, [⟨[a, b, c, d]⟩], a + b + c + d,
     AllocationResult.ALLOCATION_SUCCESS, true⟩ with hh4
  have hcur0 : Iterator.current
      ⟨cap, [⟨[a, b, c]⟩], a + b + c, AllocationResult.ALLOCATION_SUCCESS, true⟩
      Iterator.init = (⟨some 0, 0⟩, (0, 0)) := by
    simp [Iterator.current, Iterator.ensure_started, Iterator.init,
          ProgramBlock.top]
  have hadv0 : Iterator.advance
      ⟨cap, [⟨[a, b, c]⟩], a + b + c, AllocationResult.ALLOCATION_SUCCESS, true⟩
      ⟨some 0, 0⟩ = ⟨some 0, a⟩ := by
    simp [Iterator.advance, Iterator.ensure_started,
          ProgramBlock.object_size_at, ProgramBlock.top]
  have hitA : Iterator.advance
      ⟨cap, [⟨[a, b, c]⟩], a + b + c, AllocationResult.ALLOCATION_SUCCESS, true⟩
      (Iterator.current
        ⟨cap, [⟨[a, b, c]⟩], a + b + c, AllocationResult.ALLOCATION_SUCCESS, true⟩
        Iterator.init).1 = ⟨some 0, a⟩ := by
    rw [hcur0]
    exact hadv0
  refine ⟨by rw [hcur0], ?_⟩
  rw [hitA]
  have topd : (ProgramBlock.mk [a, b, c, d]).top = a + b + c + d := by
    simp [ProgramBlock.top]; omega
  have hcurB : Iterator.current h4 ⟨some 0, a⟩ = (⟨some 0, a⟩, (0, a)) := by
    simp [Iterator.current, Iterator.ensure_started, hh4]
  have hadvB : Iterator.advance h4 ⟨some 0, a⟩ = ⟨some 0, a + b⟩ := by
    simp [Iterator.advance, Iterator.ensure_started, hh4,
          ProgramBlock.object_size_at, ProgramBlock.top, ha.ne']
  have hcurC : Iterator.current h4 ⟨some 0, a + b⟩
      = (⟨some 0, a + b⟩, (0, a + b)) := by
    simp [Iterator.current, Iterator.ensure_started, hh4]
  have hadvC : Iterator.advance h4 ⟨some 0, a + b⟩ = ⟨some 0, a + b + c⟩ := by
    have hab : ¬(a + b = 0) := by omega
    simp [Iterator.advance, Iterator.ensure_started, hh4,
          ProgramBlock.object_size_at, ProgramBlock.top, hab, ha.ne', hb.ne',
          Nat.le_add_right, Nat.add_sub_cancel_left]
  have hcurD : Iterator.current h4 ⟨some 0, a + b + c⟩
      = (⟨some 0, a + b + c⟩, (0, a + b + c)) := by
    simp [Iterator.current, Iterator.ensure_started, hh4]
  have hadvD : Iterator.advance h4 ⟨some 0, a + b + c⟩
      = ⟨some 0, a + b + c + d⟩ := by
    have habc : ¬(a + b + c = 0) := by omega
    simp [Iterator.advance, Iterator.ensure_started, hh4,
          ProgramBlock.object_size_at, ProgramBlock.top, habc, ha.ne',
          hb.ne', hc.ne',
          show a ≤ a + b + c by omega, show a + b + c - a = b + c by omega,
          show ¬(b + c = 0) by omega, show b ≤ b + c by omega,
          show b + c - b = c by omega, Nat.sub_self]
  have heB : Iterator.eos h4 ⟨some 0, a⟩ = false := by
    simp [Iterator.eos, hh4, ProgramBlock.top]
    omega
  have heC : Iterator.eos h4 ⟨some 0, a + b⟩ = false := by
    simp [Iterator.eos, hh4, ProgramBlock.top]
    omega
  have heD : Iterator.eos h4 ⟨some 0, a + b + c⟩ = false := by
    simp [Iterator.eos, hh4, ProgramBlock.top]
    omega
  have heE : Iterator.eos h4 ⟨some 0, a + b + c + d⟩ = true := by
    simp [Iterator.eos, hh4, ProgramBlock.top]
    omega
  rw [iterObjects_succ, heB]
  simp only [Bool.false_eq_true, if_false, hcurB, hadvB]
  rw [iterObjects_succ, heC]
  simp only [Bool.false_eq_true, if_false, hcurC, hadvC]
  rw [iterObjects_succ, heD]
  simp only [Bool.false_eq_true, if_false, hcurD, hadvD]
  rw [iterObjects_succ, heE]
  simp

/-- Witness for C1: sizes 10, 20, 30 for A, B, C and 5 for D over capacity
100; the remaining pass after visiting A yields B, C and the mid-iteration
object D. -/
theorem iterator_sees_objects_allocated_mid_iteration_witness :
    (Iterator.current ((ProgramHeap.new 100).allocate_all [10, 20, 30])
        Iterator.init).2 = (0, 0) ∧
    iterObjects ((((ProgramHeap.new 100).allocate_all [10, 20, 30])._allocate_raw 5).2)
        4
        (Iterator.advance ((ProgramHeap.new 100).allocate_all [10, 20, 30])
          (Iterator.current ((ProgramHeap.new 100).allocate_all [10, 20, 30])
            Iterator.init).1)
      = [(0, 10), (0, 30), (0, 60)] := by
  have hth := iterator_sees_objects_allocated_mid_iteration 100 10 20 30 5
    (by decide) (by decide) (by decide) (by decide) (by decide)
  simpa using hth

end toit
